import Mathlib

/-!
Verification of the sentinel-stream ingestion/decoding/batching engine.

The definitions below are a shallow embedding of the Go consumer
(`cmd/server`-style main loop with binary + JSON decode, latency windows,
batch accumulation and Influx line-protocol forwarding) and of the binary
encoder used by the load generator (`cmd/bench`).

Modelling conventions:
* byte sequences are `List Nat` with every element `< 256`;
* Go `int64` values are `Int` together with explicit two's-complement
  wrapping (`wrap64`, `toUint64`, `toInt64`) where the code converts;
* Go `float64` values are represented by their IEEE-754 bit patterns
  (`Nat < 2^64`); parsing a JSON number into a `float64` performs a real
  round-to-nearest-even conversion from the exact rational value of the
  literal to a bit pattern;
* Go `time.Duration` values are `Int` nanosecond counts;
* float percentile arguments (`0.5`, `0.9`, `0.99`) are modelled as exact
  fractions `num/den`; for these constants and the window sizes used the
  float computation `math.Ceil(p * float64(n))` agrees with the exact
  rational ceiling, which is what the embedding computes.
-/

/-- Floor of the base-2 logarithm, fuel-driven so that it reduces by kernel
computation; the fuel is the number itself, which always suffices. -/
def natLog2Aux : Nat → Nat → Nat
  | 0, _ => 0
  | fuel + 1, n => if n ≤ 1 then 0 else natLog2Aux fuel (n / 2) + 1

/-- Floor of the base-2 logarithm of a natural number (`natLog2 0 = 0`). -/
def natLog2 (n : Nat) : Nat := natLog2Aux n n

/-- Power of two computed by shifting, so that reduction does not trip the
elaborator's exponentiation threshold for large exponents. -/
def pow2 (n : Nat) : Nat := Nat.shiftLeft 1 n

theorem pow2_eq (n : Nat) : pow2 n = 2 ^ n := by
  simp [pow2, Nat.shiftLeft_eq]

/-- Ceiling division on naturals: `ceilDivNat a b = ⌈a / b⌉` for `b > 0`. -/
def ceilDivNat (a b : Nat) : Nat := (a + b - 1) / b

/-- Round the nonnegative fraction `a / b` to the nearest natural, ties to
even — the rounding used both by IEEE-754 conversion and by Go's fixed
precision decimal formatting. -/
def rneFrac (a b : Nat) : Nat :=
  let q := a / b
  let r := a % b
  if 2 * r < b then q
  else if b < 2 * r then q + 1
  else if q % 2 = 0 then q else q + 1

/-- Two's-complement wrap of an integer into the signed 64-bit range,
modelling overflow of Go `int64` arithmetic. -/
def wrap64 (i : Int) : Int := (i + 2 ^ 63) % 2 ^ 64 - 2 ^ 63

/-- Reinterpretation of a signed 64-bit value as unsigned, modelling Go's
`uint64(x)` conversion. -/
def toUint64 (i : Int) : Nat := (i % 2 ^ 64).toNat

/-- Reinterpretation of an unsigned 64-bit value as signed, modelling Go's
`int64(x)` conversion. -/
def toInt64 (u : Nat) : Int :=
  if u < 2 ^ 63 then (u : Int) else (u : Int) - 2 ^ 64

/-- Little-endian serialization of a 64-bit word to 8 bytes, modelling
`binary.LittleEndian.PutUint64`. -/
def putLE (n : Nat) : List Nat :=
  [n % 256, n / 256 % 256, n / 256 ^ 2 % 256, n / 256 ^ 3 % 256,
   n / 256 ^ 4 % 256, n / 256 ^ 5 % 256, n / 256 ^ 6 % 256, n / 256 ^ 7 % 256]

/-- Little-endian read of a 64-bit word from bytes, modelling
`binary.LittleEndian.Uint64`. -/
def leUint64 (bs : List Nat) : Nat :=
  bs.foldr (fun b acc => b + 256 * acc) 0

/-- Decoded telemetry record; this is the Go `Metric` struct shared by the
agent, bench and server (`timestamp`, `cpu_usage`, `mem_usage`,
`send_time_unix_nano`).  The two `float64` fields are represented by their
IEEE-754 bit patterns. -/
structure Metric where
  timestamp : Int
  cpuUsage : Nat
  memUsage : Nat
  sendTimeUnixNano : Int
  deriving DecidableEq, Repr

/-- Binary wire-format decode of a 32-byte payload, modelling the
`len(payload) == 32` branch of the server loop:
`ts = int64(LE.Uint64(payload[0:8]))`,
`cpuUsage = math.Float64frombits(LE.Uint64(payload[8:16]))`,
`memUsage = math.Float64frombits(LE.Uint64(payload[16:24]))`,
`sendTimeNano = int64(LE.Uint64(payload[24:32]))`.
`Float64frombits` is the identity on bit patterns in this embedding. -/
def decodeBin (payload : List Nat) : Metric :=
  { timestamp := toInt64 (leUint64 (payload.take 8))
    cpuUsage := leUint64 ((payload.drop 8).take 8)
    memUsage := leUint64 ((payload.drop 16).take 8)
    sendTimeUnixNano := toInt64 (leUint64 ((payload.drop 24).take 8)) }

/-- Binary wire-format encode used by the load generator (`cmd/bench`):
four `binary.LittleEndian.PutUint64` writes into a 32-byte buffer, with
`uint64(timestamp)`, `math.Float64bits(cpu)`, `math.Float64bits(mem)`,
`uint64(sendTimeNano)`.  `Float64bits` is the identity on bit patterns. -/
def encode32 (m : Metric) : List Nat :=
  putLE (toUint64 m.timestamp) ++ putLE m.cpuUsage ++
    putLE m.memUsage ++ putLE (toUint64 m.sendTimeUnixNano)

theorem leUint64_putLE (n : Nat) (h : n < 2 ^ 64) : leUint64 (putLE n) = n := by
  simp [putLE, leUint64]
  omega

theorem toInt64_toUint64 (i : Int) (h1 : -2 ^ 63 ≤ i) (h2 : i < 2 ^ 63) :
    toInt64 (toUint64 i) = i := by
  simp only [toInt64, toUint64]
  omega

theorem putLE_length (n : Nat) : (putLE n).length = 8 := rfl

theorem putLE_lt (n : Nat) : leUint64 (putLE n) < 2 ^ 64 := by
  simp [putLE, leUint64]
  omega

/-- Lexical category of a JSON number literal: sign, integer digits,
fraction digits (empty when no fraction part) and optional exponent
(sign, digits).  Digits are stored as values `0..9`. -/
structure NumLit where
  neg : Bool
  ip : List Nat
  fp : List Nat
  exp : Option (Bool × List Nat)
  deriving DecidableEq, Repr

/-- Parsed JSON document. Strings are byte sequences (with `\uXXXX`
escapes decoded to code points). -/
inductive Json where
  | null : Json
  | bool : Bool → Json
  | num : NumLit → Json
  | str : List Nat → Json
  | arr : List Json → Json
  | obj : List (List Nat × Json) → Json

/-- JSON whitespace bytes: space, tab, line feed, carriage return. -/
def isWsByte (c : Nat) : Bool := c = 32 || c = 9 || c = 10 || c = 13

/-- Skip leading JSON whitespace. -/
def skipWs (input : List Nat) : List Nat := input.dropWhile isWsByte

/-- Decimal digit bytes. -/
def isDigitByte (c : Nat) : Bool := 48 ≤ c && c ≤ 57

/-- Hexadecimal digit value of a byte, if it is one. -/
def hexVal (c : Nat) : Option Nat :=
  if 48 ≤ c && c ≤ 57 then some (c - 48)
  else if 97 ≤ c && c ≤ 102 then some (c - 87)
  else if 65 ≤ c && c ≤ 70 then some (c - 55)
  else none

/-- Parse the body of a JSON string after the opening quote.  Returns the
decoded content and the input after the closing quote.  Escapes follow
RFC 8259; bytes below 0x20 are rejected. -/
def parseStringBody : List Nat → Option (List Nat × List Nat)
  | [] => none
  | 34 :: rest => some ([], rest)
  | 92 :: 117 :: h1 :: h2 :: h3 :: h4 :: rest =>
    match hexVal h1, hexVal h2, hexVal h3, hexVal h4 with
    | some a, some b, some c, some d =>
      match parseStringBody rest with
      | some (s, r) => some ((((a * 16 + b) * 16 + c) * 16 + d) :: s, r)
      | none => none
    | _, _, _, _ => none
  | 92 :: e :: rest =>
    let lit : Option Nat :=
      if e = 34 || e = 92 || e = 47 then some e
      else if e = 98 then some 8
      else if e = 102 then some 12
      else if e = 110 then some 10
      else if e = 114 then some 13
      else if e = 116 then some 9
      else none
    match lit with
    | some c =>
      match parseStringBody rest with
      | some (s, r) => some (c :: s, r)
      | none => none
    | none => none
  | c :: rest =>
    if c < 32 then none
    else
      match parseStringBody rest with
      | some (s, r) => some (c :: s, r)
      | none => none

/-- Parse a JSON number literal at the head of the input following the
RFC 8259 grammar (optional minus, integer part without leading zeros,
optional fraction, optional exponent). -/
def parseNumLit (input : List Nat) : Option (NumLit × List Nat) :=
  let (neg, r1) :=
    match input with
    | 45 :: r => (true, r)
    | _ => (false, input)
  let ipRaw := r1.takeWhile isDigitByte
  let r2 := r1.dropWhile isDigitByte
  if ipRaw = [] then none
  else if 1 < ipRaw.length && ipRaw.headD 0 = 48 then none
  else
    let step2 : Option (List Nat × List Nat) :=
      match r2 with
      | 46 :: r3 =>
        let fpRaw := r3.takeWhile isDigitByte
        if fpRaw = [] then none
        else some (fpRaw, r3.dropWhile isDigitByte)
      | _ => some ([], r2)
    match step2 with
    | none => none
    | some (fpRaw, r4) =>
      match r4 with
      | 101 :: r5 | 69 :: r5 =>
        let (en, r6) :=
          match r5 with
          | 43 :: r => (false, r)
          | 45 :: r => (true, r)
          | _ => (false, r5)
        let edRaw := r6.takeWhile isDigitByte
        if edRaw = [] then none
        else
          some (⟨neg, ipRaw.map (· - 48), fpRaw.map (· - 48),
                  some (en, edRaw.map (· - 48))⟩,
                r6.dropWhile isDigitByte)
      | _ =>
        some (⟨neg, ipRaw.map (· - 48), fpRaw.map (· - 48), none⟩, r4)

/-- Parse a JSON primitive (null, true, false or a number) at the head of
the input. -/
def parsePrim (input : List Nat) : Option (Json × List Nat) :=
  match input with
  | 110 :: 117 :: 108 :: 108 :: rest => some (.null, rest)
  | 116 :: 114 :: 117 :: 101 :: rest => some (.bool true, rest)
  | 102 :: 97 :: 108 :: 115 :: 101 :: rest => some (.bool false, rest)
  | _ =>
    match parseNumLit input with
    | some (l, rest) => some (.num l, rest)
    | none => none

/-- Stack frame of the iterative JSON parser: an array being accumulated,
or an object being accumulated together with the key awaiting its value. -/
inductive PFrame where
  | arrF : List Json → PFrame
  | objF : List (List Nat × Json) → List Nat → PFrame

/-- State of the iterative JSON parser: either about to parse a value, or
holding a completed value to deliver to the enclosing frame. -/
inductive PState where
  | toParse : List PFrame → List Nat → PState
  | haveVal : Json → List PFrame → List Nat → PState

/-- One fuel-driven loop of a stack-machine JSON parser.  Each transition
either consumes input or pops a frame, so fuel linear in the input length
is sufficient. -/
def pLoop : Nat → PState → Option Json
  | 0, _ => none
  | fuel + 1, .toParse stack input =>
    match skipWs input with
    | [] => none
    | c :: rest =>
      if c = 91 then
        match skipWs rest with
        | 93 :: r3 => pLoop fuel (.haveVal (.arr []) stack r3)
        | _ => pLoop fuel (.toParse (.arrF [] :: stack) rest)
      else if c = 123 then
        match skipWs rest with
        | 125 :: r3 => pLoop fuel (.haveVal (.obj []) stack r3)
        | 34 :: r3 =>
          match parseStringBody r3 with
          | some (k, r4) =>
            match skipWs r4 with
            | 58 :: r5 => pLoop fuel (.toParse (.objF [] k :: stack) r5)
            | _ => none
          | none => none
        | _ => none
      else if c = 34 then
        match parseStringBody rest with
        | some (s, r2) => pLoop fuel (.haveVal (.str s) stack r2)
        | none => none
      else
        match parsePrim (c :: rest) with
        | some (v, r2) => pLoop fuel (.haveVal v stack r2)
        | none => none
  | fuel + 1, .haveVal v stack input =>
    match stack with
    | [] => if skipWs input = [] then some v else none
    | .arrF acc :: stk =>
      match skipWs input with
      | 44 :: r2 => pLoop fuel (.toParse (.arrF (acc ++ [v]) :: stk) r2)
      | 93 :: r2 => pLoop fuel (.haveVal (.arr (acc ++ [v])) stk r2)
      | _ => none
    | .objF acc k :: stk =>
      match skipWs input with
      | 44 :: r2 =>
        match skipWs r2 with
        | 34 :: r3 =>
          match parseStringBody r3 with
          | some (k2, r4) =>
            match skipWs r4 with
            | 58 :: r5 =>
              pLoop fuel (.toParse (.objF (acc ++ [(k, v)]) k2 :: stk) r5)
            | _ => none
          | none => none
        | _ => none
      | 125 :: r2 => pLoop fuel (.haveVal (.obj (acc ++ [(k, v)])) stk r2)
      | _ => none

/-- Parse a complete JSON document from a byte payload, requiring the value
to span the entire input (up to surrounding whitespace), as both
`encoding/json` and `jsoniter` do for `Unmarshal`. -/
def parseJson (raw : List Nat) : Option Json :=
  pLoop (8 * raw.length + 64) (.toParse [] raw)

example : parseJson [123, 125] = some (.obj []) := by rfl
example : parseJson [110, 117, 108, 108] = some .null := by rfl
example :
    parseJson [123, 34, 97, 34, 58, 49, 50, 125] =
      some (.obj [([97], .num ⟨false, [1, 2], [], none⟩)]) := by rfl
example : parseJson [123, 34, 97, 34, 58, 125] = none := by rfl

/-- Numeric value of a digit list read in base 10. -/
def digitsToNat (ds : List Nat) : Nat := ds.foldl (fun a d => a * 10 + d) 0

/-- Magnitude of a JSON number literal as an exact fraction
`(numerator, denominator)` with positive denominator. -/
def litMagnitude (l : NumLit) : Nat × Nat :=
  let base := digitsToNat (l.ip ++ l.fp)
  match l.exp with
  | none => (base, 10 ^ l.fp.length)
  | some (false, ed) => (base * 10 ^ digitsToNat ed, 10 ^ l.fp.length)
  | some (true, ed) => (base, 10 ^ (l.fp.length + digitsToNat ed))

/-- Decide whether `2 ^ e ≤ p / q` for a positive fraction, using only
natural-number arithmetic. -/
def le2pow (e : Int) (p q : Nat) : Bool :=
  if 0 ≤ e then q * pow2 e.toNat ≤ p else q ≤ p * pow2 (-e).toNat

/-- Floor of the base-2 logarithm of the positive fraction `p / q`. -/
def fracLog2 (p q : Nat) : Int :=
  let e0 : Int := (natLog2 p : Int) - (natLog2 q : Int)
  if ¬ le2pow e0 p q then e0 - 1
  else if le2pow (e0 + 1) p q then e0 + 1
  else e0

/-- Round the positive fraction `p / q` scaled by `2 ^ k` to the nearest
integer, ties to even. -/
def rneScaled (p q : Nat) (k : Int) : Nat :=
  if 0 ≤ k then rneFrac (p * pow2 k.toNat) q else rneFrac p (q * pow2 (-k).toNat)

/-- IEEE-754 binary64 round-to-nearest-even conversion of the signed exact
fraction `(-1)^neg * p / q` to a bit pattern, modelling what
`strconv.ParseFloat` produces for the literal.  Returns `none` on overflow
to infinity, which `encoding/json`/`jsoniter` report as an error
(`strconv.ErrRange`). -/
def floatBitsOfFrac (neg : Bool) (p q : Nat) : Option Nat :=
  let signBit : Nat := if neg then 2 ^ 63 else 0
  if p = 0 then some signBit
  else
    let e := fracLog2 p q
    if e < -1022 then some (signBit + rneScaled p q 1074)
    else if 1023 < e then none
    else
      let mant := rneScaled p q (52 - e)
      if mant = 2 ^ 53 then
        if e = 1023 then none
        else some (signBit + (e + 1 + 1023).toNat * 2 ^ 52)
      else some (signBit + (e + 1023).toNat * 2 ^ 52 + (mant - 2 ^ 52))

/-- Go `int64` value of a JSON number literal per `encoding/json` semantics
for integer struct fields: the literal must be syntactically an integer
(no fraction, no exponent) and fit in the signed 64-bit range, else the
decode errors (`strconv.ParseInt` failure). -/
def litToInt64 (l : NumLit) : Option Int :=
  if l.fp = [] && l.exp = none then
    let v : Int := if l.neg then -(digitsToNat l.ip : Int) else digitsToNat l.ip
    if -2 ^ 63 ≤ v ∧ v < 2 ^ 63 then some v else none
  else none

/-- Go `float64` bit pattern of a JSON number literal (any numeric literal
is accepted unless it overflows to infinity). -/
def litToF64 (l : NumLit) : Option Nat :=
  floatBitsOfFrac l.neg (litMagnitude l).1 (litMagnitude l).2

example : litToInt64 ⟨false, [4, 2], [], none⟩ = some 42 := by rfl
example : litToInt64 ⟨true, [5], [], none⟩ = some (-5) := by rfl
example : litToInt64 ⟨false, [1], [5], none⟩ = none := by rfl
example : litToF64 ⟨false, [1], [], none⟩ = some 4607182418800017408 := by rfl
example : litToF64 ⟨false, [0], [5], none⟩ = some 4602678819172646912 := by rfl
example : litToF64 ⟨true, [0], [], none⟩ = some (2 ^ 63) := by rfl

/-- ASCII lower-casing of a byte, modelling the case-insensitive JSON field
matching of `encoding/json`/`jsoniter` (exotic Unicode case folds are not
modelled; the struct tags here are plain ASCII). -/
def foldCase (b : Nat) : Nat := if 65 ≤ b ∧ b ≤ 90 then b + 32 else b

/-- Byte representation of an ASCII string. -/
def strBytes (s : String) : List Nat := s.toList.map Char.toNat

/-- Struct tag of the `Timestamp` field. -/
def tsKey : List Nat := strBytes "timestamp"

/-- Struct tag of the `CPUUsage` field. -/
def cpuKey : List Nat := strBytes "cpu_usage"

/-- Struct tag of the `MemUsage` field. -/
def memKey : List Nat := strBytes "mem_usage"

/-- Struct tag of the `SendTimeUnixNano` field. -/
def sendKey : List Nat := strBytes "send_time_unix_nano"

/-- Apply one JSON object member to the metric being decoded, following Go
unmarshal semantics: a recognized key requires a value of the field's type
(JSON null is skipped without error); unknown keys are ignored; a
mismatched value aborts the decode with an error (`none`). -/
def applyField (m : Metric) (k : List Nat) (v : Json) : Option Metric :=
  let kf := k.map foldCase
  if kf = tsKey then
    match v with
    | .null => some m
    | .num l =>
      match litToInt64 l with
      | some n => some { m with timestamp := n }
      | none => none
    | _ => none
  else if kf = cpuKey then
    match v with
    | .null => some m
    | .num l =>
      match litToF64 l with
      | some b => some { m with cpuUsage := b }
      | none => none
    | _ => none
  else if kf = memKey then
    match v with
    | .null => some m
    | .num l =>
      match litToF64 l with
      | some b => some { m with memUsage := b }
      | none => none
    | _ => none
  else if kf = sendKey then
    match v with
    | .null => some m
    | .num l =>
      match litToInt64 l with
      | some n => some { m with sendTimeUnixNano := n }
      | none => none
    | _ => none
  else some m

/-- Fold all members of a JSON object into the metric, failing as soon as a
member fails (later duplicates overwrite earlier values, as in Go). -/
def applyFields (m : Metric) : List (List Nat × Json) → Option Metric
  | [] => some m
  | (k, v) :: rest =>
    match applyField m k v with
    | some m2 => applyFields m2 rest
    | none => none

/-- Unmarshal a parsed JSON document into a metric starting from the given
field values, per Go semantics: a JSON object assigns the recognized
fields present, JSON null leaves the struct untouched, and any other
top-level value is a type error. -/
def unmarshalJson (m : Metric) : Json → Option Metric
  | .null => some m
  | .obj fs => applyFields m fs
  | _ => none

/-- Decode failure taxonomy of the codec. -/
inductive DecodeError where
  | malformed : DecodeError
  deriving DecidableEq, Repr

/-- Reset of the pooled scratch metric, modelling the server's
`*m = Metric{}` zeroing before each text decode. -/
def scratchReset (_scratch : Metric) : Metric :=
  { timestamp := 0, cpuUsage := 0, memUsage := 0, sendTimeUnixNano := 0 }

/-- Text decode path of the server loop: take a scratch metric from the
pool, zero it (`*m = Metric{}`), and `jsoniter.Unmarshal` the payload into
it; a parse or type failure drops the message with a `Malformed` error. -/
def decodeTextWith (scratch : Metric) (raw : List Nat) :
    Except DecodeError Metric :=
  let m := scratchReset scratch
  match parseJson raw with
  | none => .error .malformed
  | some j =>
    match unmarshalJson m j with
    | some m2 => .ok m2
    | none => .error .malformed

/-- Text decode with a fresh zero scratch metric. -/
def decodeText (raw : List Nat) : Except DecodeError Metric :=
  decodeTextWith ⟨0, 0, 0, 0⟩ raw

/-- Record codec of the ingestion loop: a payload of length exactly 32 is
decoded via the fixed binary layout (which cannot fail); any other length
is parsed as JSON text. -/
def decode (raw : List Nat) : Except DecodeError Metric :=
  if raw.length = 32 then .ok (decodeBin raw) else decodeText raw

example : decodeText [123, 125] = .ok ⟨0, 0, 0, 0⟩ := by rfl
example :
    decodeText (strBytes "\x7b\x22timestamp\x22: 7\x7d") = .ok ⟨7, 0, 0, 0⟩ := by
  rfl
example : decodeText (strBytes "\x7b\x22timestamp\x22: true\x7d") =
    .error .malformed := by rfl
example : decodeText (strBytes "nope") = .error .malformed := by rfl
example : decodeText (strBytes "null") = .ok ⟨0, 0, 0, 0⟩ := by rfl
example :
    decodeText (strBytes "\x7b\x22cpu_usage\x22: 0.5, \x22junk\x22: [1, \x22x\x22]\x7d") =
      .ok ⟨0, 4602678819172646912, 0, 0⟩ := by rfl

/-- Ascending sort of a duration window, modelling
`sort.Slice(sorted, func(i, j int) bool { return sorted[i] < sorted[j] })`
applied to a copy of the samples (for integer values the sorted sequence is
unique, so any correct sort yields the same list). -/
def sortDur (l : List Int) : List Int := List.insertionSort (· ≤ ·) l

/-- Nearest-rank percentile of a duration slice, modelling the server's
`percentile` function with the float argument `p` represented as the exact
fraction `num / den`:
`rank := int(math.Ceil(p*float64(n))) - 1`, clamped to `[0, n-1]`, then
`durations[rank]`.  For the fractions used (1/2, 9/10, 99/100) and any
window size the float computation is exact, so `math.Ceil` coincides with
the rational ceiling `ceilDivNat (num * n) den`. -/
def percentile (durations : List Int) (num den : Nat) : Int :=
  let n := durations.length
  if n = 0 then 0
  else
    let rank : Int := (ceilDivNat (num * n) den : Int) - 1
    let rank := if rank < 0 then 0 else rank
    let rank := if (n : Int) ≤ rank then (n : Int) - 1 else rank
    durations.getD rank.toNat 0

/-- One emitted latency summary: sample count and p50/p90/p99 in whole
microseconds (`Duration.Microseconds` truncates toward zero). -/
structure LatencyStats where
  count : Nat
  p50us : Int
  p90us : Int
  p99us : Int
  deriving DecidableEq, Repr

/-- Summary emission of `printLatencyStats`: an empty window produces no
log line at all (the function returns before printing); otherwise the
samples are copied, sorted ascending, and the three nearest-rank
percentiles are reported in microseconds together with the count.  The
`E2E`/`INTERNAL` label only selects the log prefix and is not modelled. -/
def printLatencyStats (samples : List Int) : Option LatencyStats :=
  if samples = [] then none
  else
    let sorted := sortDur samples
    some { count := sorted.length
           p50us := Int.tdiv (percentile sorted 1 2) 1000
           p90us := Int.tdiv (percentile sorted 9 10) 1000
           p99us := Int.tdiv (percentile sorted 99 100) 1000 }

/-- Batch capacity `B`, the Go constant `influxBatchSize = 256`. -/
def influxBatchSize : Nat := 256

/-- Entry copied into the batch buffer, the Go `batchPoint` struct
(`ts int64; cpu, mem float64` — floats as bit patterns here). -/
structure batchPoint where
  ts : Int
  cpu : Nat
  mem : Nat
  deriving DecidableEq, Repr

/-- One append to the batch accumulator, modelling lines 119 and 123–126 of
the consumer: `batch = append(batch, p)` followed by
`if len(batch) >= influxBatchSize { flushInfluxBatch(...); batch = batch[:0] }`.
Returns the new live buffer and the flushed batch, if any. -/
def accAppend (batch : List batchPoint) (p : batchPoint) :
    List batchPoint × Option (List batchPoint) :=
  let b := batch ++ [p]
  if influxBatchSize ≤ b.length then ([], some b) else (b, none)

/-- Accumulator state after a sequence of appends from a given start state:
the live buffer together with every batch flushed so far, in order. -/
def accRunFrom (start : List batchPoint × List (List batchPoint))
    (ps : List batchPoint) : List batchPoint × List (List batchPoint) :=
  ps.foldl
    (fun st p =>
      let (b, fl) := accAppend st.1 p
      (b, st.2 ++ fl.toList))
    start

/-- Accumulator run from the initial empty buffer. -/
def accRun (ps : List batchPoint) : List batchPoint × List (List batchPoint) :=
  accRunFrom ([], []) ps

/-- ASCII character of a decimal digit. -/
def digitChar (d : Nat) : Char := Char.ofNat (48 + d)

/-- Decimal digit characters of a natural number (empty for zero);
fuel-driven with the number itself as fuel. -/
def natDigitsAux : Nat → Nat → List Char
  | 0, _ => []
  | fuel + 1, n => if n = 0 then [] else natDigitsAux fuel (n / 10) ++ [digitChar (n % 10)]

/-- Decimal rendering of a natural number. -/
def natToString (n : Nat) : String :=
  if n = 0 then "0" else String.mk (natDigitsAux n n)

/-- Six-digit zero-padded decimal rendering of a fraction value `< 10^6`. -/
def padFrac6 (f : Nat) : String :=
  let ds := natDigitsAux f f
  String.mk (List.replicate (6 - ds.length) (digitChar 0) ++ ds)

/-- Go `%f` formatting of a float64 bit pattern: the exact binary value
rounded (half to even, which for six decimals can only matter for exact
halves such as 1/128) to six decimal places, or the special forms for
infinities and NaN. -/
def fmtF6 (bits : Nat) : String :=
  let s := bits / 2 ^ 63
  let e := bits / 2 ^ 52 % 2 ^ 11
  let f := bits % 2 ^ 52
  if e = 2047 then
    if f ≠ 0 then "NaN" else if s = 1 then "-Inf" else "+Inf"
  else
    let pq : Nat × Nat :=
      if e = 0 then (f, pow2 1074)
      else if 1075 ≤ e then ((2 ^ 52 + f) * pow2 (e - 1075), 1)
      else (2 ^ 52 + f, pow2 (1075 - e))
    let n6 := rneFrac (pq.1 * 10 ^ 6) pq.2
    (if s = 1 then "-" else "") ++ natToString (n6 / 10 ^ 6) ++ "." ++
      padFrac6 (n6 % 10 ^ 6)

/-- Go `%d` formatting of a signed 64-bit value. -/
def fmtI64 (i : Int) : String :=
  if i < 0 then "-" ++ natToString i.natAbs else natToString i.natAbs

/-- Nanosecond timestamp of a batch entry, modelling `tsNano := p.ts * 1e9`
computed in Go `int64` arithmetic (which wraps on overflow). -/
def influxTsNano (p : batchPoint) : Int := wrap64 (p.ts * 1000000000)

/-- One line of the Influx line-protocol body, modelling
`fmt.Fprintf(buf, "system_stats cpu=%f,mem=%f %d\n", p.cpu, p.mem, tsNano)`. -/
def influxLine (p : batchPoint) : String :=
  "system_stats cpu=" ++ fmtF6 p.cpu ++ ",mem=" ++ fmtF6 p.mem ++ " " ++
    fmtI64 (influxTsNano p) ++ "\n"

/-- Whole request body: one line per batch entry, in batch order. -/
def influxBody (batch : List batchPoint) : String :=
  String.join (batch.map influxLine)

/-- HTTP POST request issued by the forwarder (URL, authorization header
value, content type, body). -/
structure HttpRequest where
  url : String
  auth : String
  contentType : String
  body : String
  deriving DecidableEq, Repr

/-- Sink forwarder, modelling `flushInfluxBatch`: an empty batch returns
immediately with no network write; otherwise exactly one POST request is
built carrying the token authorization, the line-protocol content type and
the serialized body.  (Transport failures after the single write attempt
are logged and dropped by the caller and do not alter the request.) -/
def flushInfluxBatch (writeURL token : String) (batch : List batchPoint) :
    Option HttpRequest :=
  if batch = [] then none
  else
    some { url := writeURL
           auth := "Token " ++ token
           contentType := "application/vnd.influxdb.lineprotocol"
           body := influxBody batch }

example : fmtF6 4602678819172646912 = "0.500000" := by rfl
example : fmtF6 (2 ^ 63) = "-0.000000" := by rfl
example : influxLine ⟨2, 4607182418800017408, 4602678819172646912⟩ =
    "system_stats cpu=1.000000,mem=0.500000 2000000000\n" := by rfl

/-- State of the consumer goroutine: the two latency windows, the live
batch buffer, and (as observable history) the batches flushed to the sink
and the summary pairs printed so far (E2E first, INTERNAL second, as the
code prints them). -/
structure LoopState where
  latencySamples : List Int
  internalSamples : List Int
  batch : List batchPoint
  flushes : List (List batchPoint)
  reports : List (Option LatencyStats × Option LatencyStats)
  deriving DecidableEq, Repr

/-- Inputs of one loop iteration: the received payload and the two clock
readings the code takes (`time.Since(recvAt)` for the internal duration,
and the wall clock in nanoseconds when the end-to-end latency is taken). -/
structure LoopInput where
  payload : List Nat
  dInternal : Int
  nowNano : Int

/-- Initial consumer state: empty windows, empty batch, nothing emitted. -/
def initState : LoopState := ⟨[], [], [], [], []⟩

/-- Lines 119–126 of the consumer: append the decoded point to the batch,
append the internal duration sample, and flush if the batch reached
capacity. -/
def ingestPhase (s : LoopState) (m : Metric) (dInternal : Int) : LoopState :=
  let (b, fl) := accAppend s.batch ⟨m.timestamp, m.cpuUsage, m.memUsage⟩
  { s with batch := b
           flushes := s.flushes ++ fl.toList
           internalSamples := s.internalSamples ++ [dInternal] }

/-- Lines 128–130: if the record carries a producer timestamp, append the
end-to-end latency `time.Since(time.Unix(0, sendTimeNano))`. -/
def e2ePhase (s : LoopState) (m : Metric) (nowNano : Int) : LoopState :=
  if m.sendTimeUnixNano ≠ 0 then
    { s with latencySamples :=
        s.latencySamples ++ [nowNano - m.sendTimeUnixNano] }
  else s

/-- Lines 131–136: when the internal window has reached capacity, print
both summaries (E2E first) and clear both windows. -/
def summarizePhase (s : LoopState) : LoopState :=
  if 1000 ≤ s.internalSamples.length then
    { s with reports := s.reports ++
        [(printLatencyStats s.latencySamples,
          printLatencyStats s.internalSamples)]
             latencySamples := []
             internalSamples := [] }
  else s

/-- One iteration of the consumer loop: decode the payload (dropping the
message and changing nothing on a decode error), then ingest, track
end-to-end latency, and maybe summarize. -/
def step (s : LoopState) (inp : LoopInput) : LoopState :=
  match decode inp.payload with
  | .error _ => s
  | .ok m => summarizePhase (e2ePhase (ingestPhase s m inp.dInternal) m inp.nowNano)

/-- Consumer loop over a finite input trace, from the initial state. -/
def runLoop (inputs : List LoopInput) : LoopState :=
  inputs.foldl step initState

theorem toUint64_lt (i : Int) : toUint64 i < 2 ^ 64 := by
  simp only [toUint64]
  omega

/-- Payload used to witness format dispatch: exactly 32 bytes that also
happen to be a syntactically valid JSON document. -/
def raw32Json : List Nat :=
  strBytes "\x7b\x22timestamp\x22: 1, \x22junk\x22: 234567\x7d"

/-- C3: a payload of length exactly 32 is always decoded via the fixed
binary layout, and that decode is total (it is `decodeBin`, a function
into `Metric`, so it cannot fail); a payload of any other length is always
parsed as structured text, even if it would parse under the other
scheme. -/
theorem formatDispatch (raw : List Nat) :
    (raw.length = 32 → decode raw = .ok (decodeBin raw)) ∧
    (raw.length ≠ 32 → decode raw = decodeText raw) := by
  constructor <;> intro h <;> simp [decode, h]

/-- Witness for C3 at concrete payloads: a 32-byte payload that is valid
JSON text is nevertheless decoded as binary, and a 2-byte payload takes
the text path. -/
theorem formatDispatch_witness :
    raw32Json.length = 32 ∧
    decode raw32Json = .ok (decodeBin raw32Json) ∧
    decodeText raw32Json = .ok ⟨1, 0, 0, 0⟩ ∧
    ([123, 125] : List Nat).length ≠ 32 ∧
    decode [123, 125] = decodeText [123, 125] :=
  ⟨by rfl, (formatDispatch raw32Json).1 (by rfl), by rfl, by decide,
    (formatDispatch [123, 125]).2 (by decide)⟩

/-- C7: encoding a record with the load generator's 32-byte little-endian
binary layout and decoding it with the server's binary branch yields an
identical record, for every tuple with `observed_at` and `sent_at_nanos`
in the signed 64-bit range and float bit patterns in the unsigned 64-bit
range. -/
theorem binaryRoundtrip (m : Metric)
    (h1 : -2 ^ 63 ≤ m.timestamp) (h2 : m.timestamp < 2 ^ 63)
    (h3 : m.cpuUsage < 2 ^ 64) (h4 : m.memUsage < 2 ^ 64)
    (h5 : -2 ^ 63 ≤ m.sendTimeUnixNano) (h6 : m.sendTimeUnixNano < 2 ^ 63) :
    decodeBin (encode32 m) = m := by
  obtain ⟨t, cu, mu, st⟩ := m
  simp only at h1 h2 h3 h4 h5 h6
  have henc : encode32 ⟨t, cu, mu, st⟩ =
      putLE (toUint64 t) ++
        (putLE cu ++ (putLE mu ++ putLE (toUint64 st))) := by
    simp [encode32]
  have hd8 : ∀ (a rest : List Nat), a.length = 8 → (a ++ rest).drop 8 = rest :=
    fun a rest h => List.drop_left' h
  have ht8 : ∀ (a rest : List Nat), a.length = 8 → (a ++ rest).take 8 = a :=
    fun a rest h => List.take_left' h
  have hdrop8 : (encode32 ⟨t, cu, mu, st⟩).drop 8 =
      putLE cu ++ (putLE mu ++ putLE (toUint64 st)) := by
    rw [henc]; exact hd8 _ _ (putLE_length _)
  have hdrop16 : (encode32 ⟨t, cu, mu, st⟩).drop 16 =
      putLE mu ++ putLE (toUint64 st) := by
    have : (encode32 ⟨t, cu, mu, st⟩).drop 16 =
        ((encode32 ⟨t, cu, mu, st⟩).drop 8).drop 8 := by
      rw [List.drop_drop]
    rw [this, hdrop8]
    exact hd8 _ _ (putLE_length _)
  have hdrop24 : (encode32 ⟨t, cu, mu, st⟩).drop 24 = putLE (toUint64 st) := by
    have : (encode32 ⟨t, cu, mu, st⟩).drop 24 =
        ((encode32 ⟨t, cu, mu, st⟩).drop 16).drop 8 := by
      rw [List.drop_drop]
    rw [this, hdrop16]
    exact hd8 _ _ (putLE_length _)
  have htake0 : (encode32 ⟨t, cu, mu, st⟩).take 8 = putLE (toUint64 t) := by
    rw [henc]; exact ht8 _ _ (putLE_length _)
  simp only [decodeBin, htake0, hdrop8, hdrop16, hdrop24,
    ht8 _ _ (putLE_length _)]
  rw [List.take_of_length_le (le_of_eq (putLE_length _))]
  rw [leUint64_putLE _ (toUint64_lt t), leUint64_putLE _ h3,
    leUint64_putLE _ h4, leUint64_putLE _ (toUint64_lt st)]
  rw [toInt64_toUint64 t h1 h2, toInt64_toUint64 st h5 h6]

/-- Witness for C7 at a concrete record (timestamp 1700000000, cpu bits of
1.0, mem bits of 0.5, producer timestamp -5). -/
theorem binaryRoundtrip_witness :
    decodeBin (encode32 ⟨1700000000, 4607182418800017408,
        4602678819172646912, -5⟩) =
      ⟨1700000000, 4607182418800017408, 4602678819172646912, -5⟩ :=
  binaryRoundtrip _ (by decide) (by decide) (by decide) (by decide)
    (by decide) (by decide)

/-- C10: the record decoded from a text payload does not depend on the
prior contents of the pooled scratch metric, because the loop zeroes the
scratch (`*m = Metric\x7b\x7d`) before each unmarshal; moreover the codec's text
path is exactly this scratch decode, for any pool state. -/
theorem scratchIndependence (s1 s2 : Metric) (raw : List Nat) :
    decodeTextWith s1 raw = decodeTextWith s2 raw ∧
    (raw.length ≠ 32 → decode raw = decodeTextWith s1 raw) := by
  refine ⟨rfl, fun h => ?_⟩
  simp [decode, h, decodeText]
  rfl

/-- Witness for C10: two maximally different scratch states decode the
same payload to the same record. -/
theorem scratchIndependence_witness :
    decodeTextWith ⟨7, 8, 9, 10⟩ [123, 125] =
      decodeTextWith ⟨0, 0, 0, 0⟩ [123, 125] ∧
    decode [123, 125] = decodeTextWith ⟨7, 8, 9, 10⟩ [123, 125] :=
  ⟨(scratchIndependence ⟨7, 8, 9, 10⟩ ⟨0, 0, 0, 0⟩ [123, 125]).1,
    (scratchIndependence ⟨7, 8, 9, 10⟩ ⟨0, 0, 0, 0⟩ [123, 125]).2 (by decide)⟩

theorem step_eq_phases (s : LoopState) (inp : LoopInput) (m : Metric)
    (h : decode inp.payload = .ok m) :
    step s inp =
      summarizePhase (e2ePhase (ingestPhase s m inp.dInternal) m inp.nowNano) := by
  simp [step, h]

theorem step_of_decodeErr (s : LoopState) (inp : LoopInput)
    (e : DecodeError) (h : decode inp.payload = .error e) : step s inp = s := by
  simp [step, h]

/-- C9: in one loop iteration over a successfully decoded record, the
ingest phase appends exactly one duration to the internal window; the
end-to-end phase appends one duration to the end-to-end window exactly
when `sent_at_nanos` is nonzero and never touches the internal window;
the summarize phase never appends (it either leaves a window unchanged or
clears it); and an iteration is exactly the composition of these phases. -/
theorem sentinelHandling (s : LoopState) (m : Metric) (inp : LoopInput)
    (d now : Int) :
    (ingestPhase s m d).internalSamples = s.internalSamples ++ [d] ∧
    (e2ePhase s m now).internalSamples = s.internalSamples ∧
    (e2ePhase s m now).latencySamples =
      (if m.sendTimeUnixNano ≠ 0 then
        s.latencySamples ++ [now - m.sendTimeUnixNano]
      else s.latencySamples) ∧
    (m.sendTimeUnixNano = 0 → (e2ePhase s m now).latencySamples = s.latencySamples) ∧
    ((summarizePhase s).internalSamples = s.internalSamples ∨
      (summarizePhase s).internalSamples = []) ∧
    ((summarizePhase s).latencySamples = s.latencySamples ∨
      (summarizePhase s).latencySamples = []) ∧
    (decode inp.payload = .ok m →
      step s inp =
        summarizePhase (e2ePhase (ingestPhase s m inp.dInternal) m inp.nowNano)) := by
  refine ⟨?_, ?_, ?_, ?_, ?_, ?_, step_eq_phases s inp m⟩
  · simp [ingestPhase]
  · by_cases h : m.sendTimeUnixNano = 0 <;> simp [e2ePhase, h]
  · by_cases h : m.sendTimeUnixNano = 0 <;> simp [e2ePhase, h]
  · intro h; simp [e2ePhase, h]
  · by_cases h : 1000 ≤ s.internalSamples.length <;> simp [summarizePhase, h]
  · by_cases h : 1000 ≤ s.internalSamples.length <;> simp [summarizePhase, h]

/-- Witness for C9 at a concrete state and input: a record with
`sent_at_nanos = 0` (the all-zero 32-byte payload) contributes to the
internal window only. -/
theorem sentinelHandling_witness :
    (ingestPhase initState ⟨0, 0, 0, 0⟩ 5).internalSamples = [5] ∧
    (e2ePhase initState ⟨0, 0, 0, 0⟩ 7).latencySamples = [] ∧
    step initState ⟨List.replicate 32 0, 5, 7⟩ =
      summarizePhase (e2ePhase (ingestPhase initState ⟨0, 0, 0, 0⟩ 5)
        ⟨0, 0, 0, 0⟩ 7) := by
  have h := sentinelHandling initState ⟨0, 0, 0, 0⟩ ⟨List.replicate 32 0, 5, 7⟩ 5 7
  refine ⟨h.1, h.2.2.2.1 rfl, h.2.2.2.2.2.2 (by rfl)⟩

/-- C6 (corrected): an empty latency window at summarization time produces
no summary at all: `printLatencyStats` returns before printing, so no line
with count 0 is emitted; a nonempty window always produces a summary, and
the function is total, so no failure occurs either way. -/
theorem emptyWindowSkipped :
    printLatencyStats ([] : List Int) = none ∧
    (∀ w : List Int, w ≠ [] → (printLatencyStats w).isSome = true) := by
  refine ⟨by rfl, fun w hw => ?_⟩
  simp [printLatencyStats, hw]

/-- Witness for C6's amended statement at the singleton window `[5]`. -/
theorem emptyWindowSkipped_witness :
    printLatencyStats ([] : List Int) = none ∧
    (printLatencyStats [5]).isSome = true :=
  ⟨emptyWindowSkipped.1, emptyWindowSkipped.2 [5] (by decide)⟩

/-- Counterexample for C6 as stated: the claim asserts that an empty
end-to-end window is still reported with count 0 and zero percentiles,
but `printLatencyStats` emits nothing at all for an empty window (there
is no summary line, with count 0 or otherwise). -/
theorem emptyWindowReported_counterexample :
    ¬ ∃ st : LatencyStats, printLatencyStats ([] : List Int) = some st := by
  intro ⟨st, hst⟩
  simp [printLatencyStats] at hst

/-- C8 (amended): the forwarder performs no network write for an empty
batch and exactly one POST for a nonempty batch, carrying the token
authorization and the line-protocol content type; the body is one
`system_stats cpu=...,mem=... <ts>` line per entry in entry order; the
line timestamp is `observed_at * 1_000_000_000` computed in wrapping
signed 64-bit arithmetic, which equals the exact product whenever that
product fits in the signed 64-bit range. -/
theorem forwarderSingleWrite (url tok : String) (batch : List batchPoint) :
    (batch = [] → flushInfluxBatch url tok batch = none) ∧
    (batch ≠ [] → flushInfluxBatch url tok batch =
      some { url := url, auth := "Token " ++ tok,
             contentType := "application/vnd.influxdb.lineprotocol",
             body := influxBody batch }) ∧
    influxBody batch = String.join (batch.map influxLine) ∧
    (∀ p ∈ batch, influxTsNano p = wrap64 (p.ts * 1000000000) ∧
      (-2 ^ 63 ≤ p.ts * 1000000000 → p.ts * 1000000000 < 2 ^ 63 →
        influxTsNano p = p.ts * 1000000000)) := by
  refine ⟨fun h => by simp [flushInfluxBatch, h],
    fun h => by simp [flushInfluxBatch, h],
    rfl, fun p _ => ⟨rfl, fun hlo hhi => ?_⟩⟩
  simp only [influxTsNano, wrap64]
  omega

/-- Witness for C8's amended statement at a concrete one-entry batch with
an in-range timestamp. -/
theorem forwarderSingleWrite_witness :
    flushInfluxBatch "u" "t" [⟨2, 4607182418800017408, 4602678819172646912⟩] =
      some { url := "u", auth := "Token t",
             contentType := "application/vnd.influxdb.lineprotocol",
             body := influxBody [⟨2, 4607182418800017408, 4602678819172646912⟩] } ∧
    influxTsNano ⟨2, 4607182418800017408, 4602678819172646912⟩ = 2000000000 := by
  have h := forwarderSingleWrite "u" "t"
    [⟨2, 4607182418800017408, 4602678819172646912⟩]
  refine ⟨h.2.1 (by simp), ?_⟩
  have h2 := (h.2.2.2 ⟨2, 4607182418800017408, 4602678819172646912⟩
    (by simp)).2 (by decide) (by decide)
  simpa using h2

/-- Counterexample for C8 as stated: the claim asserts every line's
timestamp equals `observed_at * 1_000_000_000` exactly, but for an entry
with `observed_at = 2^62` (a reachable signed 64-bit value) the Go `int64`
multiplication wraps to 0, so the rendered line carries timestamp 0
instead of the exact product. -/
theorem forwarderTimestamp_counterexample :
    influxTsNano ⟨2 ^ 62, 0, 0⟩ = 0 ∧
    (2 ^ 62 : Int) * 1000000000 = 4611686018427387904000000000 ∧
    influxLine ⟨2 ^ 62, 0, 0⟩ =
      "system_stats cpu=0.000000,mem=0.000000 0\n" := by
  refine ⟨by decide, by decide, by rfl⟩

theorem accRunFrom_cons (b : List batchPoint) (fl : List (List batchPoint))
    (p : batchPoint) (ps : List batchPoint) :
    accRunFrom (b, fl) (p :: ps) =
      accRunFrom ((accAppend b p).1, fl ++ (accAppend b p).2.toList) ps := rfl

theorem accRunFrom_spec (ps : List batchPoint) :
    ∀ (b : List batchPoint) (fl : List (List batchPoint)),
      b.length < influxBatchSize →
      (accRunFrom (b, fl) ps).1.length = (b.length + ps.length) % 256 ∧
      (accRunFrom (b, fl) ps).2.length = fl.length + (b.length + ps.length) / 256 ∧
      (accRunFrom (b, fl) ps).2.flatten ++ (accRunFrom (b, fl) ps).1 =
        fl.flatten ++ (b ++ ps) ∧
      ((∀ c ∈ fl, c.length = influxBatchSize) →
        ∀ c ∈ (accRunFrom (b, fl) ps).2, c.length = influxBatchSize) := by
  induction ps with
  | nil =>
    intro b fl hb
    simp only [influxBatchSize] at hb
    simp [accRunFrom, Nat.mod_eq_of_lt hb, Nat.div_eq_of_lt hb]
  | cons p ps ih =>
    intro b fl hb
    simp only [influxBatchSize] at hb
    rw [accRunFrom_cons]
    by_cases h255 : b.length = 255
    · have ha1 : (accAppend b p).1 = [] := by
        simp [accAppend, influxBatchSize, h255]
      have ha2 : (accAppend b p).2.toList = [b ++ [p]] := by
        simp [accAppend, influxBatchSize, h255]
      rw [ha1, ha2]
      obtain ⟨i1, i2, i3, i4⟩ :=
        ih [] (fl ++ [b ++ [p]]) (by simp [influxBatchSize])
      refine ⟨?_, ?_, ?_, ?_⟩
      · rw [i1]
        simp only [List.length_nil, List.length_cons]
        omega
      · rw [i2]
        simp only [List.length_nil, List.length_cons, List.length_append,
          List.length_singleton]
        omega
      · rw [i3]
        simp [List.flatten_append, List.append_assoc]
      · intro hall
        refine i4 (fun c hc => ?_)
        rcases List.mem_append.mp hc with h | h
        · exact hall c h
        · have hc2 : c = b ++ [p] := by simpa using h
          subst hc2
          simp [influxBatchSize, h255]
    · have hnf : ¬ influxBatchSize ≤ b.length + 1 := by
        simp only [influxBatchSize]
        omega
      have hlenp : (b ++ [p]).length = b.length + 1 := by simp
      have ha1 : (accAppend b p).1 = b ++ [p] := by
        simp only [accAppend, hlenp]
        rw [if_neg hnf]
      have ha2 : (accAppend b p).2.toList = [] := by
        simp only [accAppend, hlenp]
        rw [if_neg hnf]
        rfl
      rw [ha1, ha2, List.append_nil]
      obtain ⟨i1, i2, i3, i4⟩ := ih (b ++ [p]) fl
        (by simp only [influxBatchSize] at hnf ⊢; rw [hlenp]; omega)
      refine ⟨?_, ?_, ?_, i4⟩
      · rw [i1, hlenp, List.length_cons]
        omega
      · rw [i2, hlenp, List.length_cons]
        omega
      · rw [i3]
        simp [List.append_assoc]

/-- C1: for every sequence of appended entries, the batch accumulator's
buffer never exceeds the capacity `B = 256` (its residual length is always
the append count modulo 256), a full batch is flushed on exactly every
256th append (the number of flushes is the append count divided by 256 and
every flushed batch has exactly 256 entries), and the flushed batches
followed by the live buffer reproduce the appended entries in arrival
order, so each flush happens before any further entry is appended. -/
theorem batchAccumulatorInvariant (ps : List batchPoint) :
    (accRun ps).1.length = ps.length % 256 ∧
    (accRun ps).1.length < influxBatchSize ∧
    (accRun ps).2.length = ps.length / 256 ∧
    (accRun ps).2.flatten ++ (accRun ps).1 = ps ∧
    (∀ c ∈ (accRun ps).2, c.length = influxBatchSize) := by
  obtain ⟨i1, i2, i3, i4⟩ :=
    accRunFrom_spec ps [] [] (by simp [influxBatchSize])
  simp only [List.length_nil, Nat.zero_add] at i1 i2
  simp only [List.flatten_nil, List.nil_append] at i3
  simp only [accRun]
  refine ⟨i1, ?_, i2, i3, i4 (by simp)⟩
  rw [i1]
  simp only [influxBatchSize]
  omega

/-- Witness for C1: 256 appends produce exactly one flushed batch, which
has exactly 256 entries and is the appended sequence itself, leaving the
live buffer empty. -/
theorem batchAccumulatorInvariant_witness :
    ∃ c, (accRun (List.replicate 256 (⟨0, 0, 0⟩ : batchPoint))).2 = [c] ∧
      c ∈ (accRun (List.replicate 256 (⟨0, 0, 0⟩ : batchPoint))).2 ∧
      c.length = influxBatchSize ∧
      c = List.replicate 256 (⟨0, 0, 0⟩ : batchPoint) ∧
      (accRun (List.replicate 256 (⟨0, 0, 0⟩ : batchPoint))).1 = [] := by
  obtain ⟨h1, h2, h3, h4, h5⟩ :=
    batchAccumulatorInvariant (List.replicate 256 (⟨0, 0, 0⟩ : batchPoint))
  have hbuf : (accRun (List.replicate 256 (⟨0, 0, 0⟩ : batchPoint))).1 = [] := by
    have hz : (accRun (List.replicate 256 (⟨0, 0, 0⟩ : batchPoint))).1.length = 0 := by
      rw [h1, List.length_replicate]
    exact List.eq_nil_of_length_eq_zero hz
  have hone : (accRun (List.replicate 256 (⟨0, 0, 0⟩ : batchPoint))).2.length = 1 := by
    rw [h3, List.length_replicate]
  obtain ⟨c, hc⟩ := List.length_eq_one.mp hone
  refine ⟨c, hc, by rw [hc]; exact List.mem_singleton.mpr rfl,
    h5 c (by rw [hc]; exact List.mem_singleton.mpr rfl), ?_, hbuf⟩
  have hj := h4
  rw [hc, hbuf, List.append_nil] at hj
  have hflat : ([c] : List (List batchPoint)).flatten = c := by simp
  rw [hflat] at hj
  exact hj

theorem ingestPhase_internal (s : LoopState) (m : Metric) (d : Int) :
    (ingestPhase s m d).internalSamples = s.internalSamples ++ [d] := by
  simp [ingestPhase]

theorem ingestPhase_reports (s : LoopState) (m : Metric) (d : Int) :
    (ingestPhase s m d).reports = s.reports := by
  simp [ingestPhase]

theorem e2ePhase_internal (s : LoopState) (m : Metric) (now : Int) :
    (e2ePhase s m now).internalSamples = s.internalSamples := by
  by_cases h : m.sendTimeUnixNano = 0 <;> simp [e2ePhase, h]

theorem e2ePhase_reports (s : LoopState) (m : Metric) (now : Int) :
    (e2ePhase s m now).reports = s.reports := by
  by_cases h : m.sendTimeUnixNano = 0 <;> simp [e2ePhase, h]

theorem step_lengths (s : LoopState) (inp : LoopInput) (m : Metric)
    (h : decode inp.payload = .ok m)
    (hlt : s.internalSamples.length < 1000) :
    ((step s inp).internalSamples.length =
      if s.internalSamples.length + 1 = 1000 then 0
      else s.internalSamples.length + 1) ∧
    ((step s inp).reports.length =
      if s.internalSamples.length + 1 = 1000 then s.reports.length + 1
      else s.reports.length) ∧
    (step s inp).internalSamples.length < 1000 := by
  rw [step_eq_phases s inp m h]
  set X := e2ePhase (ingestPhase s m inp.dInternal) m inp.nowNano with hX
  have hXi : X.internalSamples = s.internalSamples ++ [inp.dInternal] := by
    rw [hX, e2ePhase_internal, ingestPhase_internal]
  have hXr : X.reports = s.reports := by
    rw [hX, e2ePhase_reports, ingestPhase_reports]
  have hXlen : X.internalSamples.length = s.internalSamples.length + 1 := by
    rw [hXi]
    simp
  by_cases ht : s.internalSamples.length + 1 = 1000
  · have hc : 1000 ≤ X.internalSamples.length := by omega
    have hsum : summarizePhase X = { X with
        reports := X.reports ++ [(printLatencyStats X.latencySamples,
          printLatencyStats X.internalSamples)]
        latencySamples := []
        internalSamples := [] } := by
      simp [summarizePhase, hc]
    rw [hsum]
    refine ⟨by simp [ht], by simp [ht, hXr], by simp⟩
  · have hc : ¬ 1000 ≤ X.internalSamples.length := by omega
    have hsum : summarizePhase X = X := by simp [summarizePhase, hc]
    rw [hsum]
    refine ⟨by rw [hXlen]; simp [ht], by simp [ht, hXr], by omega⟩

theorem runFrom_counts (inputs : List LoopInput) :
    ∀ s : LoopState, (∀ i ∈ inputs, (decode i.payload).isOk = true) →
      s.internalSamples.length < 1000 →
      ((inputs.foldl step s).internalSamples.length =
        (s.internalSamples.length + inputs.length) % 1000) ∧
      ((inputs.foldl step s).reports.length =
        s.reports.length + (s.internalSamples.length + inputs.length) / 1000) := by
  induction inputs with
  | nil =>
    intro s _ h
    simp [Nat.mod_eq_of_lt h, Nat.div_eq_of_lt h]
  | cons i rest ih =>
    intro s hall hlt
    have hok : (decode i.payload).isOk = true := hall i (by simp)
    obtain ⟨m, hm⟩ : ∃ m, decode i.payload = .ok m := by
      cases hd : decode i.payload with
      | ok m => exact ⟨m, rfl⟩
      | error e => rw [hd] at hok; simp [Except.isOk, Except.toBool] at hok
    obtain ⟨l1, l2, l3⟩ := step_lengths s i m hm hlt
    obtain ⟨r1, r2⟩ := ih (step s i) (fun j hj => hall j (by simp [hj])) l3
    rw [List.foldl_cons]
    constructor
    · rw [r1, l1]
      by_cases ht : s.internalSamples.length + 1 = 1000 <;>
        simp only [ht, if_true, if_false, List.length_cons] <;> omega
    · rw [r2, l2, l1]
      by_cases ht : s.internalSamples.length + 1 = 1000 <;>
        simp only [ht, if_true, if_false, List.length_cons] <;> omega

/-- C5: the summarize phase fires exactly when the internal window has
reached `W = 1000` — below that it is the identity regardless of the
end-to-end window's contents, and at capacity it emits one report pair and
clears both windows together (even if the end-to-end window holds fewer
samples); consequently, over any run of successfully decoded messages,
exactly one summarization occurs per 1000 messages and the internal window
holds the remainder. -/
theorem windowRotation :
    (∀ s : LoopState, s.internalSamples.length < 1000 → summarizePhase s = s) ∧
    (∀ s : LoopState, 1000 ≤ s.internalSamples.length →
      summarizePhase s = { s with
        reports := s.reports ++ [(printLatencyStats s.latencySamples,
          printLatencyStats s.internalSamples)]
        latencySamples := []
        internalSamples := [] }) ∧
    (∀ inputs : List LoopInput,
      (∀ i ∈ inputs, (decode i.payload).isOk = true) →
      (runLoop inputs).reports.length = inputs.length / 1000 ∧
      (runLoop inputs).internalSamples.length = inputs.length % 1000) := by
  refine ⟨fun s h => ?_, fun s h => by simp [summarizePhase, h], fun inputs hall => ?_⟩
  · have : ¬ 1000 ≤ s.internalSamples.length := by omega
    simp [summarizePhase, this]
  · obtain ⟨r1, r2⟩ := runFrom_counts inputs initState hall (by simp [initState])
    simp only [initState, List.length_nil, Nat.zero_add] at r1 r2
    exact ⟨by simpa [runLoop, initState] using r2,
      by simpa [runLoop, initState] using r1⟩

/-- Witness for C5: a one-message run (the all-zero 32-byte payload) fills
the internal window to one sample and triggers no summarization; the
summarize phase is the identity on the initial state. -/
theorem windowRotation_witness :
    summarizePhase initState = initState ∧
    (runLoop [⟨List.replicate 32 0, 5, 7⟩]).reports.length = 0 ∧
    (runLoop [⟨List.replicate 32 0, 5, 7⟩]).internalSamples.length = 1 := by
  refine ⟨windowRotation.1 initState (by simp [initState]), ?_, ?_⟩
  · exact (windowRotation.2.2 [⟨List.replicate 32 0, 5, 7⟩]
      (by intro i hi; simp at hi; subst hi; rfl)).1
  · exact (windowRotation.2.2 [⟨List.replicate 32 0, 5, 7⟩]
      (by intro i hi; simp at hi; subst hi; rfl)).2

theorem ceilDivNat_eq_ceil (x b : Nat) (hb : 0 < b) :
    (ceilDivNat x b : ℤ) = ⌈(x : ℚ) / b⌉ := by
  have hbQ : (0 : ℚ) < (b : ℚ) := by exact_mod_cast hb
  symm
  rw [Int.ceil_eq_iff]
  have hkd : ceilDivNat x b = (x + b - 1) / b := rfl
  have hmod : b * ((x + b - 1) / b) + (x + b - 1) % b = x + b - 1 :=
    Nat.div_add_mod _ _
  have hr : (x + b - 1) % b < b := Nat.mod_lt _ hb
  have hF1 : b * ((x + b - 1) / b) + 1 ≤ x + b := by omega
  have hF2 : x ≤ b * ((x + b - 1) / b) := by omega
  have hC1 : (b : ℚ) * (((x + b - 1) / b : ℕ) : ℚ) + 1 ≤ (x : ℚ) + b := by
    exact_mod_cast hF1
  have hC2 : (x : ℚ) ≤ (b : ℚ) * (((x + b - 1) / b : ℕ) : ℚ) := by
    exact_mod_cast hF2
  rw [hkd]
  simp only [Int.cast_natCast]
  constructor
  · rw [lt_div_iff₀ hbQ]
    nlinarith [hC1, hbQ]
  · rw [div_le_iff₀ hbQ]
    nlinarith [hC2]

/-- C2: for every nonempty window and percentile fraction `num/den` in
(0, 1], the reported percentile is the element at index
`ceil(p * n) - 1` of the ascending-sorted copy of the window, where that
index already lies in `[0, n-1]` so the clamping in the code is the
identity; the sorted copy is a sorted permutation of the window, and the
ceiling computed by the code equals the mathematical ceiling of `p * n`. -/
theorem percentileNearestRank (w : List Int) (num den : Nat)
    (hw : w ≠ []) (h0 : 0 < num) (h1 : num ≤ den) :
    percentile (sortDur w) num den =
      (sortDur w).getD (ceilDivNat (num * w.length) den - 1) 0 ∧
    (ceilDivNat (num * w.length) den : ℤ) =
      ⌈((num : ℚ) / den) * w.length⌉ ∧
    1 ≤ ceilDivNat (num * w.length) den ∧
    ceilDivNat (num * w.length) den ≤ w.length ∧
    (sortDur w).Sorted (· ≤ ·) ∧
    List.Perm (sortDur w) w := by
  have hden : 0 < den := lt_of_lt_of_le h0 h1
  have hperm : List.Perm (sortDur w) w := List.perm_insertionSort _ w
  have hlen : (sortDur w).length = w.length := hperm.length_eq
  have hn : 0 < w.length := List.length_pos.mpr hw
  have hk1 : 1 ≤ ceilDivNat (num * w.length) den := by
    have hpos : 0 < num * w.length := Nat.mul_pos h0 hn
    have : den ≤ num * w.length + den - 1 := by omega
    exact (Nat.one_le_div_iff hden).mpr this
  have hk2 : ceilDivNat (num * w.length) den ≤ w.length := by
    have hmn : num * w.length ≤ den * w.length := Nat.mul_le_mul_right _ h1
    exact (Nat.div_le_iff_le_mul_add_pred hden).mpr (by omega)
  refine ⟨?_, ?_, hk1, hk2, List.sorted_insertionSort _ w, hperm⟩
  · simp only [percentile, hlen]
    rw [if_neg (by omega)]
    rw [if_neg (show ¬ ((ceilDivNat (num * w.length) den : ℤ) - 1 < 0) by omega)]
    rw [if_neg (show ¬ ((w.length : ℤ) ≤ (ceilDivNat (num * w.length) den : ℤ) - 1)
      by omega)]
    congr 1
    omega
  · rw [show ((num : ℚ) / den) * w.length = ((num * w.length : ℕ) : ℚ) / den by
      push_cast; ring]
    exact ceilDivNat_eq_ceil _ _ hden

/-- Witness for C2: ten samples of 1..10 milliseconds (in nanoseconds);
the p90 index is `ceil(0.9 * 10) - 1 = 8` and the reported p90 is the 9th
smallest value, 9 ms. -/
theorem percentileNearestRank_witness :
    ([1000000, 2000000, 3000000, 4000000, 5000000, 6000000, 7000000,
      8000000, 9000000, 10000000] : List Int) ≠ [] ∧
    percentile (sortDur [1000000, 2000000, 3000000, 4000000, 5000000,
        6000000, 7000000, 8000000, 9000000, 10000000]) 9 10 =
      (sortDur [1000000, 2000000, 3000000, 4000000, 5000000, 6000000,
        7000000, 8000000, 9000000, 10000000]).getD
        (ceilDivNat (9 * 10) 10 - 1) 0 ∧
    ceilDivNat (9 * 10) 10 - 1 = 8 ∧
    percentile (sortDur [1000000, 2000000, 3000000, 4000000, 5000000,
        6000000, 7000000, 8000000, 9000000, 10000000]) 9 10 = 9000000 :=
  ⟨by decide,
    (percentileNearestRank [1000000, 2000000, 3000000, 4000000, 5000000,
      6000000, 7000000, 8000000, 9000000, 10000000] 9 10 (by decide)
      (by decide) (by decide)).1,
    by decide, by rfl⟩

/-- Value unsuitable for a Go `int64` struct field: anything but JSON null
(skipped) or an integer-syntax numeric literal in the signed 64-bit
range. -/
def wrongTypeForInt : Json → Bool
  | .null => false
  | .num l => (litToInt64 l).isNone
  | _ => true

/-- Value unsuitable for a Go `float64` struct field: anything but JSON
null (skipped) or a numeric literal not overflowing to infinity. -/
def wrongTypeForF64 : Json → Bool
  | .null => false
  | .num l => (litToF64 l).isNone
  | _ => true

/-- An object member that makes the unmarshal fail: a recognized key
(after ASCII case folding) whose value has the wrong type for the field. -/
def badEntryB (kv : List Nat × Json) : Bool :=
  let kf := kv.1.map foldCase
  if kf = tsKey ∨ kf = sendKey then wrongTypeForInt kv.2
  else if kf = cpuKey ∨ kf = memKey then wrongTypeForF64 kv.2
  else false

/-- A parsed document on which the metric unmarshal fails: a top-level
value that is neither an object nor null, or an object with a bad
member. -/
def docMalformedB : Json → Bool
  | .null => false
  | .obj fs => fs.any badEntryB
  | _ => true

/-- A text payload on which the codec fails: unparseable JSON, or a parsed
document the unmarshal rejects. -/
def textMalformedB (raw : List Nat) : Bool :=
  match parseJson raw with
  | none => true
  | some j => docMalformedB j

theorem applyField_none_iff (m : Metric) (k : List Nat) (v : Json) :
    (applyField m k v = none) ↔ (badEntryB (k, v) = true) := by
  have d1 : cpuKey ≠ tsKey := by decide
  have d2 : cpuKey ≠ sendKey := by decide
  have d3 : memKey ≠ tsKey := by decide
  have d4 : memKey ≠ sendKey := by decide
  simp only [applyField, badEntryB]
  rcases v with _ | b | l | s | xs | fs <;>
    split_ifs <;>
    simp_all [wrongTypeForInt, wrongTypeForF64] <;>
    first
      | (rcases hl : litToInt64 l with _ | n <;> simp_all)
      | (rcases hl : litToF64 l with _ | n <;> simp_all)

theorem applyFields_none_iff (fs : List (List Nat × Json)) :
    ∀ m : Metric, (applyFields m fs = none) ↔ (fs.any badEntryB = true) := by
  induction fs with
  | nil => intro m; simp [applyFields]
  | cons kv rest ih =>
    intro m
    obtain ⟨k, v⟩ := kv
    simp only [applyFields, List.any_cons]
    cases ha : applyField m k v with
    | none =>
      have hb : badEntryB (k, v) = true := (applyField_none_iff m k v).mp ha
      simp [hb]
    | some m2 =>
      have hb : ¬ badEntryB (k, v) = true := by
        intro h
        have := (applyField_none_iff m k v).mpr h
        rw [ha] at this
        exact Option.noConfusion this
      simp only [Bool.not_eq_true] at hb
      simp [hb, ih m2]

/-- C4 (amended): decoding a non-32-byte payload fails with `Malformed`
exactly when the payload is not a valid JSON document or some recognized
field (`timestamp`, `cpu_usage`, `mem_usage`, `send_time_unix_nano`) is
present with a non-null value of the wrong type for the field (absent
fields do not cause failure — they keep their zero defaults, per Go
unmarshal semantics); and on every decode failure the message is dropped
with no state change at all: both latency windows, the batch buffer and
all emitted output are untouched and the loop continues. -/
theorem textDecodeFailure (raw : List Nat) (s : LoopState) (inp : LoopInput) :
    (raw.length ≠ 32 →
      (decode raw = .error .malformed ↔ textMalformedB raw = true)) ∧
    (∀ e : DecodeError, decode inp.payload = .error e → step s inp = s) := by
  constructor
  · intro h32
    simp only [decode, if_neg h32, decodeText, decodeTextWith, scratchReset,
      textMalformedB]
    cases hp : parseJson raw with
    | none => simp
    | some j =>
      simp only
      rcases j with _ | b2 | l | str | xs | fs
      · simp [unmarshalJson, docMalformedB]
      · simp [unmarshalJson, docMalformedB]
      · simp [unmarshalJson, docMalformedB]
      · simp [unmarshalJson, docMalformedB]
      · simp [unmarshalJson, docMalformedB]
      · simp only [unmarshalJson, docMalformedB]
        cases ha : applyFields ⟨0, 0, 0, 0⟩ fs with
        | none =>
          exact iff_of_true rfl ((applyFields_none_iff fs ⟨0, 0, 0, 0⟩).mp ha)
        | some m2 =>
          refine iff_of_false (fun hcon => Except.noConfusion hcon) ?_
          intro hx
          have hcon := (applyFields_none_iff fs ⟨0, 0, 0, 0⟩).mpr hx
          rw [ha] at hcon
          exact Option.noConfusion hcon
  · intro e he
    simp [step, he]

/-- Counterexample for C4 as stated: the claim requires the decode of a
parseable document to fail when a required field (`timestamp`,
`cpu_usage`, `mem_usage`) is absent, but the empty JSON object — which
has every required field absent — decodes successfully to the all-zero
record. -/
theorem requiredFieldsAbsent_counterexample :
    decode [123, 125] = .ok ⟨0, 0, 0, 0⟩ ∧
    ([123, 125] : List Nat).length ≠ 32 ∧
    parseJson [123, 125] = some (.obj []) :=
  ⟨by rfl, by decide, by rfl⟩

/-- Witness for C4's amended statement: a payload with a wrongly-typed
`timestamp` fails and leaves the loop state unchanged; the
characterization also certifies the failure. -/
theorem textDecodeFailure_witness :
    (decode (strBytes "\x7b\x22timestamp\x22: true\x7d") = .error .malformed ↔
      textMalformedB (strBytes "\x7b\x22timestamp\x22: true\x7d") = true) ∧
    step initState ⟨strBytes "\x7b\x22timestamp\x22: true\x7d", 5, 7⟩ = initState := by
  constructor
  · exact (textDecodeFailure (strBytes "\x7b\x22timestamp\x22: true\x7d") initState
      ⟨strBytes "\x7b\x22timestamp\x22: true\x7d", 5, 7⟩).1 (by decide)
  · exact (textDecodeFailure (strBytes "\x7b\x22timestamp\x22: true\x7d") initState
      ⟨strBytes "\x7b\x22timestamp\x22: true\x7d", 5, 7⟩).2 .malformed (by rfl)
